import Mathlib

/- Verification development for the on-chain deposit reconciliation engine
   of the web3-marketplace repository (src/lib/depositScanner.ts).

   The data model and every operation below are shallow embeddings of the
   TypeScript source.  Prisma `Decimal` balances and token amounts are
   modelled as exact rationals, chain block numbers (`bigint`) as `Int`,
   and database tables as lists of records.  Parts of the system that live
   outside src/ (the Prisma schema with its uniqueness constraints, the
   `$transaction` atomicity guarantee, and the fallibility of the remote
   RPC endpoint) are modelled from the specification and marked as such. -/

set_option maxHeartbeats 1000000

/-- Lifecycle states of an observed on-chain transfer (spec section 3;
`status` strings of `onchainTransaction` in the source). -/
inductive TxStatus where
  | PENDING
  | CONFIRMING
  | CONFIRMED
  | CREDITED
  | REORGED
deriving DecidableEq

/-- Lifecycle states of a deposit intent (spec section 3). -/
inductive IntentStatus where
  | PENDING
  | DETECTED
  | CREDITED
  | EXPIRED
deriving DecidableEq

/-- Ledger entry types (`type` strings of `ledgerTransaction`). -/
inductive LedgerType where
  | DEPOSIT
  | PURCHASE
  | REFUND
  | ADJUSTMENT
deriving DecidableEq

/-- A user account: `walletAddress` and the Prisma `Decimal` field
`creditBalance`, modelled as an exact rational. -/
structure User where
  id : Nat
  walletAddress : String
  creditBalance : ℚ
deriving DecidableEq

/-- A deposit intent row (`depositIntent` table). -/
structure DepositIntent where
  id : Nat
  userId : Nat
  status : IntentStatus
  createdAt : Nat
deriving DecidableEq

/-- An observed transfer row (`onchainTransaction` table).  The `amount`
field holds the token amount; the source stores `parseFloat(transfer.amount)`
(an IEEE-754 double) here — that representation issue is analysed separately
by `formatUnitsExact` and `denDivisibleByFive` below; the relational claims
do not depend on the numeric representation, so the row carries the exact
value. -/
structure OnchainTransaction where
  id : Nat
  txHash : String
  logIndex : Nat
  fromAddress : String
  toAddress : String
  amount : ℚ
  blockNumber : Int
  status : TxStatus
  confirmations : Int
  depositIntentId : Option Nat
  creditedAt : Option Nat
deriving DecidableEq

/-- A balance-affecting ledger entry (`ledgerTransaction` table). -/
structure LedgerTransaction where
  userId : Nat
  type : LedgerType
  amount : ℚ
  balanceAfter : ℚ
  referenceType : String
  referenceId : Nat
  idempotencyKey : String
deriving DecidableEq

/-- The durable store: the four tables the scanner touches plus a fresh-id
counter for inserted `onchainTransaction` rows. -/
structure DB where
  users : List User
  intents : List DepositIntent
  txs : List OnchainTransaction
  ledger : List LedgerTransaction
  nextId : Nat
deriving DecidableEq

/-- A raw transfer event as returned by `scanForDeposits` (interface
`DetectedTransfer` in the source). -/
structure DetectedTransfer where
  txHash : String
  logIndex : Nat
  fromAddress : String
  toAddress : String
  amount : ℚ
  blockNumber : Int
deriving DecidableEq

/-- The observable chain: current height plus the transfer log events the
RPC endpoint would report. -/
structure Chain where
  currentBlock : Int
  transfers : List DetectedTransfer
deriving DecidableEq

/-- Scanner configuration (`config` in src/lib/config.ts): the treasury
deposit address (absent when the env variable is not set) and the
confirmation threshold (the constant 12 in the source). -/
structure Config where
  depositAddress : Option String
  confirmationThreshold : Int
deriving DecidableEq

/-- Statistics record returned by `runDepositScanner`. -/
structure ScanStats where
  scannedBlocks : Int
  newDeposits : Nat
  updatedConfirmations : Nat
  creditedDeposits : Nat
deriving DecidableEq

/-- Modelled from the spec: the remote RPC endpoint and the durable store
are unreliable (spec sections 4.1 and 7); the source code itself contains
no schema or transport layer under src/.  Each field injects a failure at
one call site of the scanner: `heightFail` makes the top-level
`getCurrentBlock()` call of `runDepositScanner` throw, `lastScanFail` makes
the `findFirst` inside `getLastScannedBlock` throw, `logsFail` makes
`publicClient.getLogs` throw (caught inside `scanForDeposits`), `insFail`
makes the per-transfer body of `processDetectedTransfers` throw (caught by
its per-transfer handler), `pendingFetchFail` makes the
`onchainTransaction.findMany` at line 151 of `processConfirmations` throw
(NOT caught — it sits outside the per-transaction try/catch and its error
escapes `runDepositScanner` through the uncaught await at line 317),
`confFail` makes the per-transaction body of `processConfirmations` throw
(caught by its per-transaction handler), and `creditFail` makes the
`$transaction` of `creditUserDeposit` fail for a reason other than the
idempotency-key uniqueness violation (caught by its handler). -/
structure Faults where
  heightFail : Bool
  lastScanFail : Bool
  logsFail : Bool
  insFail : String → Nat → Bool
  pendingFetchFail : Bool
  confFail : Nat → Bool
  creditFail : Nat → Bool

/-- The fault assignment in which every call succeeds. -/
def noFaults : Faults :=
  ⟨false, false, false, fun _ _ => false, false, fun _ => false, fun _ => false⟩

/-- The placeholder value the source compares the configured deposit
address against (line 34 of depositScanner.ts). -/
def placeholderAddr : String := "0x_your_treasury_address_here"

/-- The configured deposit address is unusable: unset, empty, or the
placeholder (the `!depositAddress || depositAddress === ...` test at
line 34 of the source, on the lowercased address). -/
def addrUnconfigured (cfg : Config) : Bool :=
  match cfg.depositAddress with
  | none => true
  | some a => a.toLower == "" || a.toLower == placeholderAddr

/-- Embedding of `scanForDeposits` (lines 31-62): with an unusable address
the scan is skipped and `[]` returned; an RPC error is caught and `[]`
returned; otherwise the RPC reports the transfer logs addressed to the
treasury inside the block range, with addresses lowercased (lines 50-57). -/
def scanForDeposits (cfg : Config) (chain : Chain) (fromBlock toBlock : Int)
    (logsFail : Bool) : List DetectedTransfer :=
  if addrUnconfigured cfg then []
  else if logsFail then []
  else
    match cfg.depositAddress with
    | none => []
    | some a =>
      let depositAddress := a.toLower
      (chain.transfers.filter (fun t =>
        decide (fromBlock ≤ t.blockNumber) && decide (t.blockNumber ≤ toBlock)
          && t.toAddress.toLower == depositAddress)).map
        (fun t => { t with fromAddress := t.fromAddress.toLower,
                           toAddress := t.toAddress.toLower })

/-- Embedding of `getConfirmations` (lines 74-77). -/
def getConfirmations (currentBlock blockNumber : Int) : Int :=
  currentBlock - blockNumber

/-- A row with this (txHash, logIndex) natural key already exists — the
`findFirst` existence check at lines 88-93 of the source. -/
def pairRecorded (db : DB) (h : String) (li : Nat) : Bool :=
  (db.txs.find? (fun t => t.txHash == h && t.logIndex == li)).isSome

/-- The transfer matcher (lines 100-109): the most recently created
`PENDING` intent whose owning user's wallet address equals the transfer's
sender address (`findFirst ... orderBy createdAt desc`). -/
def matchIntent (db : DB) (fromAddr : String) : Option DepositIntent :=
  (db.intents.filter (fun i =>
      decide (i.status = IntentStatus.PENDING) &&
      ((db.users.find? (fun u => u.id == i.userId)).map
        (fun u => u.walletAddress == fromAddr)).getD false)).foldl
    (fun acc i =>
      match acc with
      | none => some i
      | some j => if j.createdAt < i.createdAt then some i else acc)
    none

/-- One iteration of the `for` loop of `processDetectedTransfers`
(lines 85-138): skip when the per-transfer handler catches an injected
failure; skip when the natural key is already recorded; otherwise match an
intent, insert the row (status `PENDING`; the confirmation count starts at
0 — modelled from the spec, the schema default is not under src/), and
mark a matched intent `DETECTED`. -/
def detStep (insFail : String → Nat → Bool) (acc : DB × Nat)
    (t : DetectedTransfer) : DB × Nat :=
  if insFail t.txHash t.logIndex then acc
  else if pairRecorded acc.1 t.txHash t.logIndex then acc
  else
    let db := acc.1
    let intent := matchIntent db t.fromAddress
    let newTx : OnchainTransaction :=
      { id := db.nextId, txHash := t.txHash, logIndex := t.logIndex,
        fromAddress := t.fromAddress, toAddress := t.toAddress,
        amount := t.amount, blockNumber := t.blockNumber,
        status := TxStatus.PENDING, confirmations := 0,
        depositIntentId := intent.map (fun i => i.id), creditedAt := none }
    let db1 := { db with txs := db.txs ++ [newTx], nextId := db.nextId + 1 }
    let db2 :=
      match intent with
      | some i =>
        { db1 with intents := db1.intents.map (fun j =>
            if j.id == i.id then { j with status := IntentStatus.DETECTED } else j) }
      | none => db1
    (db2, acc.2 + 1)

/-- Embedding of `processDetectedTransfers` (lines 82-141). -/
def processDetectedTransfers (insFail : String → Nat → Bool) (db : DB)
    (ts : List DetectedTransfer) : DB × Nat :=
  ts.foldl (detStep insFail) (db, 0)

/-- The idempotency key derived from a transfer's natural key
(line 218 of the source). -/
def idempotencyKeyOf (tx : OnchainTransaction) : String :=
  "deposit:" ++ tx.txHash ++ ":" ++ toString tx.logIndex

/-- The snapshot an invocation of `creditUserDeposit` holds after its read
phase (lines 193-218, all outside the atomic transaction): the transfer
row and the resolved owning user as read at that moment. -/
structure CreditSnap where
  tx : OnchainTransaction
  user : User
deriving DecidableEq

/-- User resolution of `creditUserDeposit` (lines 203-210): prefer the
linked intent's user, otherwise look the sender address up directly. -/
def resolveUser (db : DB) (tx : OnchainTransaction) : Option User :=
  let viaIntent : Option User := do
    let iid ← tx.depositIntentId
    let intent ← db.intents.find? (fun i => i.id == iid)
    db.users.find? (fun u => u.id == intent.userId)
  match viaIntent with
  | some u => some u
  | none => db.users.find? (fun u => u.walletAddress == tx.fromAddress)

/-- The read phase of `creditUserDeposit` (lines 193-218): fetch the row,
report nothing to do when it is missing or already `CREDITED`, resolve the
owning user, and otherwise return the snapshot used by the atomic phase. -/
def creditRead (db : DB) (onchainTxId : Nat) : Option CreditSnap :=
  match db.txs.find? (fun t => t.id == onchainTxId) with
  | none => none
  | some tx =>
    if tx.status = TxStatus.CREDITED then none
    else (resolveUser db tx).map (fun u => ⟨tx, u⟩)

/-- The state change performed by the four operations inside
`prisma.$transaction` (lines 224-256) when the transaction commits:
insert the ledger entry, write the precomputed balance, mark the transfer
`CREDITED` with a credited timestamp, and mark a linked intent
`CREDITED`. -/
def creditApply (now : Nat) (db : DB) (s : CreditSnap) : DB :=
  let amount := s.tx.amount
  let newBalance := s.user.creditBalance + amount
  let entry : LedgerTransaction :=
    { userId := s.user.id, type := LedgerType.DEPOSIT, amount := amount,
      balanceAfter := newBalance, referenceType := "deposit",
      referenceId := s.tx.id, idempotencyKey := idempotencyKeyOf s.tx }
  { db with
    ledger := db.ledger ++ [entry],
    users := db.users.map (fun u =>
      if u.id == s.user.id then { u with creditBalance := newBalance } else u),
    txs := db.txs.map (fun t =>
      if t.id == s.tx.id
      then { t with status := TxStatus.CREDITED, creditedAt := some now }
      else t),
    intents :=
      match s.tx.depositIntentId with
      | some iid => db.intents.map (fun i =>
          if i.id == iid then { i with status := IntentStatus.CREDITED } else i)
      | none => db.intents }

/-- The atomic phase of `creditUserDeposit` (lines 220-268).  Modelled from
the spec: the Prisma schema (not under src/) declares
`LedgerTransaction.idempotencyKey` globally unique, so the `create` fails
when the key already exists, and `prisma.$transaction` executes the four
operations atomically — on any failure none of them is applied.  The
source catches the failure: a uniqueness violation and any other error
both leave the store untouched and return `false` (lines 260-268). -/
def creditCommit (now : Nat) (fault : Bool) (db : DB) (s : CreditSnap) :
    DB × Bool :=
  if db.ledger.any (fun l => l.idempotencyKey == idempotencyKeyOf s.tx)
  then (db, false)
  else if fault then (db, false)
  else (creditApply now db s, true)

/-- Embedding of `creditUserDeposit` (lines 192-269): the read phase
followed immediately by the atomic phase. -/
def creditUserDeposit (now : Nat) (fault : Bool) (db : DB)
    (onchainTxId : Nat) : DB × Bool :=
  match creditRead db onchainTxId with
  | none => (db, false)
  | some s => creditCommit now fault db s

/-- The state-machine step of the confirmation tracker (lines 162-167):
threshold reached gives `CONFIRMED`, at least 6 gives `CONFIRMING`,
otherwise the status is left as fetched. -/
def trackStatus (threshold : Int) (prev : TxStatus) (confirmations : Int) :
    TxStatus :=
  if threshold ≤ confirmations then TxStatus.CONFIRMED
  else if 6 ≤ confirmations then TxStatus.CONFIRMING
  else prev

/-- The per-row update written by the confirmation tracker (the `update`
at lines 169-172): set the recomputed confirmation count `c` and status
`ns` on the row with the given id. -/
def trackTxUpd (c : Int) (ns : TxStatus) (txId : Nat)
    (t : OnchainTransaction) : OnchainTransaction :=
  if t.id == txId then { t with confirmations := c, status := ns } else t

/-- The store after the confirmation tracker persisted the recomputed
count and status for the fetched row `tx` (lines 159-172): the count is
`currentHeight - sourceBlock` and the status follows `trackStatus`,
both computed from the fetched row. -/
def trackDB (cfg : Config) (h : Int) (tx : OnchainTransaction) (db : DB) : DB :=
  { db with txs := db.txs.map (trackTxUpd (getConfirmations h tx.blockNumber)
      (trackStatus cfg.confirmationThreshold tx.status (getConfirmations h tx.blockNumber))
      tx.id) }

/-- One iteration of the `for` loop of `processConfirmations`
(lines 157-184): skip when the per-transaction handler catches an injected
failure; otherwise recompute the confirmation count, persist count and
status (`trackDB`), and invoke the crediting engine when the recomputed
status is `CONFIRMED` (the fetched status is never `CREDITED` here, the
guard is kept as in the source). -/
def confStep (cfg : Config) (h : Int) (now : Nat)
    (confFail creditFail : Nat → Bool) (acc : DB × Nat × Nat)
    (tx : OnchainTransaction) : DB × Nat × Nat :=
  if confFail tx.id then acc
  else
    let db1 : DB := trackDB cfg h tx acc.1
    if trackStatus cfg.confirmationThreshold tx.status (getConfirmations h tx.blockNumber)
        = TxStatus.CONFIRMED ∧ tx.status ≠ TxStatus.CREDITED then
      let r := creditUserDeposit now (creditFail tx.id) db1 tx.id
      (r.1, acc.2.1 + 1, if r.2 then acc.2.2 + 1 else acc.2.2)
    else (db1, acc.2.1 + 1, acc.2.2)

/-- The rows `processConfirmations` fetches (lines 151-155): only those in
status `PENDING` or `CONFIRMING`. -/
def pendingTxsOf (db : DB) : List OnchainTransaction :=
  db.txs.filter (fun t =>
    decide (t.status = TxStatus.PENDING) || decide (t.status = TxStatus.CONFIRMING))

/-- Embedding of `processConfirmations` (lines 146-187), returning the
store together with the `updated` and `credited` counters. -/
def processConfirmations (cfg : Config) (h : Int) (now : Nat)
    (confFail creditFail : Nat → Bool) (db : DB) : DB × Nat × Nat :=
  (pendingTxsOf db).foldl (confStep cfg h now confFail creditFail) (db, 0, 0)

/-- One step of the maximum-block-number scan used by
`getLastScannedBlock` below. -/
def glsStep (acc : Option Int) (t : OnchainTransaction) : Option Int :=
  match acc with
  | none => some t.blockNumber
  | some b => some (max b t.blockNumber)

/-- Embedding of `getLastScannedBlock` (lines 274-287): the maximum block
number among all recorded rows (`findFirst` ordered by block number
descending); on an empty table, the current height minus 1000. -/
def getLastScannedBlock (currentBlock : Int) (db : DB) : Int :=
  match db.txs.foldl glsStep none with
  | some b => b
  | none => currentBlock - 1000

/-- The successful path of `runDepositScanner` (lines 292-328): derive the
range, return the all-zero statistics when `fromBlock >= toBlock`
(line 307), otherwise scan, record, and process confirmations. -/
def runPassCore (cfg : Config) (chain : Chain) (now : Nat) (f : Faults)
    (db : DB) : DB × ScanStats :=
  let currentBlock := chain.currentBlock
  let lastScanned := getLastScannedBlock currentBlock db
  let fromBlock := lastScanned + 1
  let toBlock := currentBlock - 1
  if toBlock ≤ fromBlock then (db, ⟨0, 0, 0, 0⟩)
  else
    let transfers := scanForDeposits cfg chain fromBlock toBlock f.logsFail
    let pd := processDetectedTransfers f.insFail db transfers
    let pc := processConfirmations cfg currentBlock now f.confFail f.creditFail pd.1
    (pc.1, ⟨toBlock - fromBlock + 1, pd.2, pc.2.1, pc.2.2⟩)

/-- Embedding of `runDepositScanner` (lines 292-328) with its three
uncaught awaited calls: the top-level `getCurrentBlock()` (line 300), the
`findFirst` inside `getLastScannedBlock` (line 301), and the
`onchainTransaction.findMany` at the start of `processConfirmations`
(line 151, reached through the uncaught await at line 317 only when the
pass does not return early at line 307).  An error in any of the three
propagates to the caller; every other component failure is absorbed
inside `runPassCore`.  On the error path the return value carries no
store: rows already committed by the earlier stages persist durably in
the real system, but the rejected promise returns nothing, and no claim
rests on the store after an escaped error. -/
def runDepositScannerE (f : Faults) (cfg : Config) (chain : Chain)
    (now : Nat) (db : DB) : Except String (DB × ScanStats) :=
  if f.heightFail then Except.error "getCurrentBlock failed"
  else if f.lastScanFail then Except.error "getLastScannedBlock failed"
  else if f.pendingFetchFail
      ∧ ¬(chain.currentBlock - 1 ≤ getLastScannedBlock chain.currentBlock db + 1)
  then Except.error "onchainTransaction findMany failed"
  else Except.ok (runPassCore cfg chain now f db)

/-- Exact value of viem's `formatUnits` (line 55): the raw on-chain integer
amount scaled down by the token's decimal count, as a rational.
`formatUnits` itself produces the exact decimal string; the source then
converts that string with `parseFloat` (line 118), an IEEE-754 binary
double. -/
def formatUnitsExact (raw : Nat) (decimals : Nat) : ℚ :=
  (raw : ℚ) / (10 : ℚ) ^ decimals

/-- Token decimal count of USDT (line 8 of the source). -/
def USDT_DECIMALS : Nat := 6

/-- The reduced denominator of a rational is divisible by 5.  Every value
an IEEE-754 binary float of any width can hold is of the form m / 2^k, so
its reduced denominator is a power of two and never divisible by 5; a
rational whose reduced denominator is divisible by 5 therefore cannot be
held exactly in any binary floating-point format. -/
def denDivisibleByFive (q : ℚ) : Bool := q.den % 5 == 0

/-- An event of one invocation of `creditUserDeposit` racing with others
for the same transfer id: invocation `i` performs its read phase
(lines 193-222, outside the transaction) or its atomic commit phase
(the `$transaction` at lines 224-256).  Modelled from the spec
(section 5): the design must tolerate concurrent invocations, the atomic
transaction being the only indivisible step. -/
inductive CreditEv where
  | read (i : Nat)
  | commit (i : Nat)
deriving DecidableEq

/-- State of a set of racing `creditUserDeposit` invocations: the shared
durable store plus, for each invocation, the snapshot its read phase
produced (`none` when it has not read yet or its read phase reported
"nothing to apply"). -/
structure CreditRace where
  db : DB
  snaps : Nat → Option CreditSnap

/-- Interleaving semantics of racing `creditUserDeposit` invocations: a
read phase stores the snapshot taken from the current store; a commit
phase runs the atomic transaction against the current store using the
invocation's snapshot (a no-op when the invocation's read phase reported
"nothing to apply", in which case the invocation already returned
`false`). -/
def raceStep (now txId : Nat) (st : CreditRace) : CreditEv → CreditRace
  | CreditEv.read i => ⟨st.db, Function.update st.snaps i (creditRead st.db txId)⟩
  | CreditEv.commit i =>
    match st.snaps i with
    | none => st
    | some s => ⟨(creditCommit now false st.db s).1, st.snaps⟩

/-- Run an arbitrary interleaving of racing invocations. -/
def raceRun (now txId : Nat) (st : CreditRace) (evs : List CreditEv) : CreditRace :=
  evs.foldl (raceStep now txId) st

/-- Initial race state over a store: nobody has read yet. -/
def raceInit (db : DB) : CreditRace := ⟨db, fun _ => none⟩

/-- A user account used by the concrete scenarios below. -/
def scnUser : User := ⟨7, "0xab", 0⟩

/-- A transfer in state `CONFIRMED` whose sender is `scnUser`'s wallet. -/
def scnConfirmedTx : OnchainTransaction :=
  ⟨1, "0xh1", 0, "0xab", "0xtreasury", 5, 100, TxStatus.CONFIRMED, 40, none, none⟩

/-- Store holding `scnUser` and `scnConfirmedTx`, nothing credited yet. -/
def scnConfirmedDB : DB := ⟨[scnUser], [], [scnConfirmedTx], [], 2⟩

/-- A ledger entry already carrying `scnConfirmedTx`'s idempotency key. -/
def scnDupEntry : LedgerTransaction :=
  ⟨7, LedgerType.DEPOSIT, 5, 5, "deposit", 1, "deposit:0xh1:0"⟩

/-- Store in which `scnConfirmedTx`'s idempotency key is already taken. -/
def scnDupDB : DB := ⟨[scnUser], [], [scnConfirmedTx], [scnDupEntry], 2⟩

/-- A transfer sitting in `CONFIRMING` observed at block 100. -/
def scnConfirmingTx : OnchainTransaction :=
  ⟨1, "0xh2", 0, "0xcd", "0xtreasury", 5, 100, TxStatus.CONFIRMING, 9, none, none⟩

/-- Store holding only `scnConfirmingTx`. -/
def scnConfirmingDB : DB := ⟨[], [], [scnConfirmingTx], [], 2⟩

/-- Store with recorded transfers at blocks 1500 and 2000. -/
def scnBlocksDB : DB :=
  ⟨[], [],
   [⟨1, "0xh3", 0, "0xe", "0xt", 5, 1500, TxStatus.CREDITED, 40, none, some 1⟩,
    ⟨2, "0xh4", 1, "0xe", "0xt", 5, 2000, TxStatus.CREDITED, 40, none, some 2⟩],
   [], 3⟩

/-- Store whose single recorded transfer sits at block 10. -/
def scnBlock10DB : DB :=
  ⟨[], [], [⟨1, "0xh5", 0, "0xe", "0xt", 5, 10, TxStatus.CREDITED, 40, none, some 1⟩], [], 2⟩

/-- A chain at height 12 with a transfer log in block 11 addressed to the
treasury. -/
def scnChain12 : Chain := ⟨12, [⟨"0xh6", 0, "0xab", "0xdead", 5, 11⟩]⟩

/-- A configuration with the treasury address set and threshold 12. -/
def scnCfg : Config := ⟨some "0xdead", 12⟩

/-- A configuration with no treasury address configured, threshold 12. -/
def scnCfgNone : Config := ⟨none, 12⟩

/-- A pending transfer at block 1000 from a sender with no user account. -/
def scnPendingTx : OnchainTransaction :=
  ⟨1, "0xh7", 0, "0xnouser", "0xtreasury", 5, 1000, TxStatus.PENDING, 0, none, none⟩

/-- Store holding only `scnPendingTx`; no users at all. -/
def scnPendingDB : DB := ⟨[], [], [scnPendingTx], [], 2⟩

/-- A chain at height 1100 with no transfer logs. -/
def scnChain1100 : Chain := ⟨1100, []⟩

/-- Fault assignment in which only the top-level `getCurrentBlock()` call
of `runDepositScanner` throws. -/
def faultHeight : Faults :=
  ⟨true, false, false, fun _ _ => false, false, fun _ => false, fun _ => false⟩

/-- Fault assignment in which only the pending-transactions `findMany` at
the start of `processConfirmations` (line 151) throws. -/
def faultPendingFetch : Faults :=
  ⟨false, false, false, fun _ _ => false, true, fun _ => false, fun _ => false⟩

/-- Fault assignment in which every caught component-internal call site
fails but the three uncaught reads succeed. -/
def faultComponents : Faults :=
  ⟨false, false, true, fun _ _ => true, false, fun _ => true, fun _ => true⟩

/- Theorems.  Each claim of the specification audit is settled by exactly
   one theorem below; helper lemmas precede the claim theorems. -/

theorem glsStep_foldl_spec (l : List OnchainTransaction) :
    ∀ b : Int, ∃ c, l.foldl glsStep (some b) = some c ∧ b ≤ c ∧
      (c = b ∨ ∃ t ∈ l, c = t.blockNumber) ∧
      ∀ t ∈ l, t.blockNumber ≤ c := by
  induction l with
  | nil => intro b; exact ⟨b, rfl, le_refl b, Or.inl rfl, by simp⟩
  | cons x xs ih =>
    intro b
    obtain ⟨c, hc, hbc, hor, hall⟩ := ih (max b x.blockNumber)
    refine ⟨c, ?_, ?_, ?_, ?_⟩
    · simpa [glsStep] using hc
    · exact le_trans (le_max_left _ _) hbc
    · rcases hor with h | ⟨t, ht, rfl⟩
      · rcases max_choice b x.blockNumber with hm | hm
        · exact Or.inl (h.trans hm)
        · exact Or.inr ⟨x, by simp, h.trans hm⟩
      · exact Or.inr ⟨t, by simp [ht], rfl⟩
    · intro t ht
      rcases List.mem_cons.mp ht with rfl | ht
      · exact le_trans (le_max_right _ _) hbc
      · exact hall t ht

/-- C7: the last scanned block is derived from durable state.  As the
source computes it (`getLastScannedBlock`, lines 274-287), when
ObservedTransfer rows exist the cursor is exactly the maximum block number
among all rows — no lookback window is subtracted — and only on a fresh
deployment (empty table) is it the current height minus a lookback of
1000 blocks.  Consequently a wholly failed pass (which records nothing)
re-derives the same range, but the cursor never sits below the highest
recorded block. -/
theorem getLastScannedBlock_from_store (h : Int) (db : DB) :
    (∀ tx ∈ db.txs, tx.blockNumber ≤ getLastScannedBlock h db) ∧
    (db.txs ≠ [] → ∃ tx ∈ db.txs, getLastScannedBlock h db = tx.blockNumber) ∧
    (db.txs = [] → getLastScannedBlock h db = h - 1000) := by
  match hl : db.txs with
  | [] =>
    refine ⟨by simp, by simp, ?_⟩
    intro _
    simp [getLastScannedBlock, hl]
  | x :: xs =>
    obtain ⟨c, hc, hbc, hor, hall⟩ := glsStep_foldl_spec xs x.blockNumber
    have hfold : (x :: xs).foldl glsStep none = some c := by
      simpa [glsStep] using hc
    have hgls : getLastScannedBlock h db = c := by
      simp [getLastScannedBlock, hl, hfold]
    refine ⟨?_, ?_, by simp [hl]⟩
    · intro t ht
      rcases List.mem_cons.mp ht with rfl | ht
      · rw [hgls]; exact hbc
      · rw [hgls]; exact hall t ht
    · intro _
      rw [hgls]
      rcases hor with rfl | ⟨t, ht, rfl⟩
      · exact ⟨x, by simp⟩
      · exact ⟨t, by simp [ht]⟩

/-- C7 counterexample: with recorded transfers at blocks 1500 and 2000 the
source-derived cursor is 2000 itself, not 2000 minus the fixed lookback of
1000 the claim describes for the rows-exist case. -/
theorem getLastScannedBlock_no_lookback :
    getLastScannedBlock 5000 scnBlocksDB = 2000 ∧ (2000 : Int) ≠ 2000 - 1000 := by
  constructor
  · rfl
  · decide

/-- C7 witness: the cursor properties evaluated on the concrete two-row
store. -/
theorem getLastScannedBlock_from_store_witness :
    scnBlocksDB.txs ≠ [] ∧ ∃ tx ∈ scnBlocksDB.txs,
      getLastScannedBlock 5000 scnBlocksDB = tx.blockNumber :=
  ⟨by decide, (getLastScannedBlock_from_store 5000 scnBlocksDB).2.1 (by decide)⟩

/-- C8: the block range of a pass.  As the source computes it
(lines 300-310), `fromBlock = lastScannedBlock + 1` and
`toBlock = currentHeight - 1`, but the guard is `fromBlock >= toBlock`
(line 307): the pass reports the all-zero statistics record exactly when
`fromBlock ≥ toBlock`, so a range consisting of a single block
(`fromBlock = toBlock`) is skipped, and a range is scanned only when it
holds at least two blocks, reporting `toBlock - fromBlock + 1` scanned
blocks. -/
theorem runPass_zero_work_boundary (cfg : Config) (chain : Chain) (now : Nat)
    (f : Faults) (db : DB) :
    (chain.currentBlock - 1 ≤ getLastScannedBlock chain.currentBlock db + 1 →
      runPassCore cfg chain now f db = (db, ⟨0, 0, 0, 0⟩)) ∧
    (getLastScannedBlock chain.currentBlock db + 1 < chain.currentBlock - 1 →
      (runPassCore cfg chain now f db).2.scannedBlocks
          = (chain.currentBlock - 1) - (getLastScannedBlock chain.currentBlock db + 1) + 1 ∧
      0 < (runPassCore cfg chain now f db).2.scannedBlocks) := by
  constructor
  · intro h
    simp only [runPassCore]
    rw [if_pos h]
  · intro h
    have h' : ¬ (chain.currentBlock - 1 ≤ getLastScannedBlock chain.currentBlock db + 1) := by
      omega
    simp only [runPassCore]
    rw [if_neg h']
    refine ⟨rfl, ?_⟩
    show (0 : Int)
        < (chain.currentBlock - 1) - (getLastScannedBlock chain.currentBlock db + 1) + 1
    omega

/-- C8 counterexample: at chain height 12 with the last recorded transfer
at block 10, `fromBlock = 11 = toBlock`, and the source reports a
zero-work pass instead of scanning the single block 11 — even though the
chain holds a treasury transfer in block 11. -/
theorem runPass_equal_range_skipped :
    getLastScannedBlock scnChain12.currentBlock scnBlock10DB + 1
        = scnChain12.currentBlock - 1 ∧
    runPassCore scnCfg scnChain12 3 noFaults scnBlock10DB
        = (scnBlock10DB, ⟨0, 0, 0, 0⟩) := by
  constructor
  · decide
  · decide

/-- C8 witness: the boundary behaviour evaluated at chain height 1100 over
the store whose last recorded block is 10. -/
theorem runPass_zero_work_boundary_witness :
    getLastScannedBlock scnChain1100.currentBlock scnBlock10DB + 1
        < scnChain1100.currentBlock - 1 ∧
    ((runPassCore scnCfgNone scnChain1100 3 noFaults scnBlock10DB).2.scannedBlocks
        = (scnChain1100.currentBlock - 1)
          - (getLastScannedBlock scnChain1100.currentBlock scnBlock10DB + 1) + 1 ∧
     0 < (runPassCore scnCfgNone scnChain1100 3 noFaults scnBlock10DB).2.scannedBlocks) :=
  ⟨by decide,
   (runPass_zero_work_boundary scnCfgNone scnChain1100 3 noFaults scnBlock10DB).2 (by decide)⟩

/-- C4: exactness of the amount pipeline.  `formatUnitsExact` is the exact
value viem's `formatUnits` renders at the token's 6-decimal precision
(line 55 of the source); the source then converts that decimal string with
`parseFloat` (line 118), so the amount passes through an IEEE-754 binary
double, whose value is always of the form m / 2^k.  For the on-chain raw
amount 9007199254740993 the exact value has reduced denominator 10^6,
which is divisible by 5, while every binary floating-point value has a
power-of-two reduced denominator — so no double equals the exact amount
and the stored amount differs from the on-chain amount, refuting the
claim that no binary floating-point representation sits between decoding
and crediting. -/
theorem depositAmount_exceeds_binary_float :
    denDivisibleByFive (formatUnitsExact 9007199254740993 USDT_DECIMALS) = true ∧
    ∀ (m : ℤ) (k : ℕ), denDivisibleByFive ((m : ℚ) / (2 : ℚ) ^ k) = false := by
  constructor
  · have h1 : formatUnitsExact 9007199254740993 USDT_DECIMALS
        = Rat.divInt 9007199254740993 1000000 := by
      simp only [formatUnitsExact, USDT_DECIMALS, Rat.divInt_eq_div]
      norm_num
    rw [denDivisibleByFive, h1]
    decide
  · intro m k
    have h2 : ((2 : ℚ) ^ k) = ((2 ^ k : ℤ) : ℚ) := by push_cast; ring
    have hdvd : ((m : ℚ) / (2 : ℚ) ^ k).den ∣ 2 ^ k := by
      rw [h2, ← Rat.divInt_eq_div]
      have h3 := Rat.den_dvd m (2 ^ k)
      exact_mod_cast h3
    have h5 : ¬ ((5 : ℕ) ∣ ((m : ℚ) / (2 : ℚ) ^ k).den) := by
      intro hd
      have h6 : (5 : ℕ) ∣ 2 ^ k := dvd_trans hd hdvd
      have h7 : (5 : ℕ) ∣ 2 := Nat.Prime.dvd_of_dvd_pow (by norm_num) h6
      norm_num at h7
    simp only [denDivisibleByFive, beq_eq_false_iff_ne, ne_eq]
    intro hmod
    exact h5 (Nat.dvd_of_mod_eq_zero hmod)

theorem txs_map_id_of_update (l : List OnchainTransaction)
    (f : OnchainTransaction → OnchainTransaction) (hf : ∀ t, (f t).id = t.id) :
    (l.map f).map (fun t => t.id) = l.map (fun t => t.id) := by
  induction l with
  | nil => rfl
  | cons x xs ih => simp [hf, ih]

theorem creditApply_txs_map_id (now : Nat) (db : DB) (s : CreditSnap) :
    (creditApply now db s).txs.map (fun t => t.id) = db.txs.map (fun t => t.id) := by
  unfold creditApply
  apply txs_map_id_of_update
  intro t
  by_cases h : (t.id == s.tx.id) = true <;> simp [h]

theorem creditUserDeposit_txs_map_id (now : Nat) (fault : Bool) (db : DB) (id : Nat) :
    (creditUserDeposit now fault db id).1.txs.map (fun t => t.id)
      = db.txs.map (fun t => t.id) := by
  unfold creditUserDeposit
  cases hr : creditRead db id with
  | none => rfl
  | some s =>
    unfold creditCommit
    by_cases h1 : (db.ledger.any fun l => l.idempotencyKey == idempotencyKeyOf s.tx) = true
    · simp [h1]
    · simp only [Bool.not_eq_true] at h1
      cases fault with
      | true => simp [h1]
      | false => simp [h1, creditApply_txs_map_id]

theorem confStep_skip (cfg : Config) (h : Int) (now : Nat)
    (cf crf : Nat → Bool) (acc : DB × Nat × Nat) (tx : OnchainTransaction)
    (h1 : cf tx.id = true) : confStep cfg h now cf crf acc tx = acc := by
  unfold confStep
  rw [if_pos h1]

theorem confStep_go_credit (cfg : Config) (h : Int) (now : Nat)
    (cf crf : Nat → Bool) (acc : DB × Nat × Nat) (tx : OnchainTransaction)
    (h1 : cf tx.id = false)
    (h3 : trackStatus cfg.confirmationThreshold tx.status (getConfirmations h tx.blockNumber)
        = TxStatus.CONFIRMED ∧ tx.status ≠ TxStatus.CREDITED) :
    confStep cfg h now cf crf acc tx
      = ((creditUserDeposit now (crf tx.id) (trackDB cfg h tx acc.1) tx.id).1,
         acc.2.1 + 1,
         if (creditUserDeposit now (crf tx.id) (trackDB cfg h tx acc.1) tx.id).2
         then acc.2.2 + 1 else acc.2.2) := by
  unfold confStep
  rw [if_neg (by simp [h1]), if_pos h3]

theorem confStep_go_nocredit (cfg : Config) (h : Int) (now : Nat)
    (cf crf : Nat → Bool) (acc : DB × Nat × Nat) (tx : OnchainTransaction)
    (h1 : cf tx.id = false)
    (h3 : ¬(trackStatus cfg.confirmationThreshold tx.status (getConfirmations h tx.blockNumber)
        = TxStatus.CONFIRMED ∧ tx.status ≠ TxStatus.CREDITED)) :
    confStep cfg h now cf crf acc tx = (trackDB cfg h tx acc.1, acc.2.1 + 1, acc.2.2) := by
  unfold confStep
  rw [if_neg (by simp [h1]), if_neg h3]

theorem trackDB_txs_map_id (cfg : Config) (h : Int) (tx : OnchainTransaction)
    (db : DB) : (trackDB cfg h tx db).txs.map (fun t => t.id)
      = db.txs.map (fun t => t.id) := by
  unfold trackDB
  apply txs_map_id_of_update
  intro t
  unfold trackTxUpd
  by_cases h2 : (t.id == tx.id) = true <;> simp [h2]

theorem confStep_txs_map_id (cfg : Config) (h : Int) (now : Nat)
    (cf crf : Nat → Bool) (acc : DB × Nat × Nat) (tx : OnchainTransaction) :
    (confStep cfg h now cf crf acc tx).1.txs.map (fun t => t.id)
      = acc.1.txs.map (fun t => t.id) := by
  cases h1 : cf tx.id with
  | true => rw [confStep_skip cfg h now cf crf acc tx h1]
  | false =>
    by_cases h3 : trackStatus cfg.confirmationThreshold tx.status
        (getConfirmations h tx.blockNumber) = TxStatus.CONFIRMED ∧
        tx.status ≠ TxStatus.CREDITED
    · rw [confStep_go_credit cfg h now cf crf acc tx h1 h3]
      show (creditUserDeposit now (crf tx.id) (trackDB cfg h tx acc.1) tx.id).1.txs.map
          (fun t => t.id) = acc.1.txs.map (fun t => t.id)
      rw [creditUserDeposit_txs_map_id, trackDB_txs_map_id]
    · rw [confStep_go_nocredit cfg h now cf crf acc tx h1 h3]
      show (trackDB cfg h tx acc.1).txs.map (fun t => t.id)
          = acc.1.txs.map (fun t => t.id)
      rw [trackDB_txs_map_id]

theorem processConfirmations_foldl_txs_map_id (cfg : Config) (h : Int) (now : Nat)
    (cf crf : Nat → Bool) (l : List OnchainTransaction) :
    ∀ acc : DB × Nat × Nat,
      (l.foldl (confStep cfg h now cf crf) acc).1.txs.map (fun t => t.id)
        = acc.1.txs.map (fun t => t.id) := by
  induction l with
  | nil => intro acc; rfl
  | cons x xs ih =>
    intro acc
    rw [List.foldl_cons, ih, confStep_txs_map_id]

theorem processConfirmations_txs_map_id (cfg : Config) (h : Int) (now : Nat)
    (cf crf : Nat → Bool) (db : DB) :
    (processConfirmations cfg h now cf crf db).1.txs.map (fun t => t.id)
      = db.txs.map (fun t => t.id) :=
  processConfirmations_foldl_txs_map_id cfg h now cf crf (pendingTxsOf db) (db, 0, 0)

/-- C2: failure semantics of the atomic unit of `creditUserDeposit`.  When
the read phase produced a snapshot and either a ledger entry with the
derived idempotency key already exists (the uniqueness violation) or the
`$transaction` fails for any other reason, the invocation returns the
store untouched together with `false`: no ledger insert, no balance
update, no `CREDITED` transition, no intent update, and — the embedding
being a total function — no exception reaches the caller; a transfer that
was `CONFIRMED` therefore remains `CONFIRMED`. -/
theorem creditUserDeposit_duplicate_or_fault_no_effect
    (now : Nat) (fault : Bool) (db : DB) (id : Nat) (s : CreditSnap)
    (hs : creditRead db id = some s)
    (hdf : (∃ l ∈ db.ledger, l.idempotencyKey = idempotencyKeyOf s.tx) ∨ fault = true) :
    creditUserDeposit now fault db id = (db, false) := by
  unfold creditUserDeposit
  rw [hs]
  unfold creditCommit
  rcases hdf with ⟨l, hl, hk⟩ | hf
  · have hany : (db.ledger.any fun l => l.idempotencyKey == idempotencyKeyOf s.tx) = true :=
      List.any_eq_true.mpr ⟨l, hl, by simp [hk]⟩
    simp [hany]
  · subst hf
    by_cases hany : (db.ledger.any fun l => l.idempotencyKey == idempotencyKeyOf s.tx) = true
    · simp [hany]
    · simp only [Bool.not_eq_true] at hany
      simp [hany]

/-- C2 witness: a duplicate idempotency key on the concrete store leaves
the store untouched and reports "not applied". -/
theorem creditUserDeposit_duplicate_witness :
    creditRead scnDupDB 1 = some ⟨scnConfirmedTx, scnUser⟩ ∧
    (∃ l ∈ scnDupDB.ledger, l.idempotencyKey = idempotencyKeyOf scnConfirmedTx) ∧
    creditUserDeposit 3 false scnDupDB 1 = (scnDupDB, false) :=
  ⟨by decide, by decide,
   creditUserDeposit_duplicate_or_fault_no_effect 3 false scnDupDB 1
     ⟨scnConfirmedTx, scnUser⟩ (by decide) (Or.inl (by decide))⟩

/-- C3: the retry of confirmed-but-uncredited transfers.  On the concrete
store, `scnConfirmedTx` is `CONFIRMED`, its sender has a matching user
account, and a direct invocation of the crediting engine would apply
(`creditUserDeposit` returns `true`) — yet a full `processConfirmations`
pass is a no-op on this store, because its query (lines 151-155 of the
source) fetches only `PENDING` and `CONFIRMING` rows, so a transfer
already in `CONFIRMED` is never re-selected and the crediting engine is
never invoked for it on any later pass, contradicting the claim that such
transfers are retried on every pass. -/
theorem confirmed_transfer_never_retried :
    (∃ u ∈ scnConfirmedDB.users, u.walletAddress = scnConfirmedTx.fromAddress) ∧
    scnConfirmedTx.status = TxStatus.CONFIRMED ∧
    (creditUserDeposit 3 false scnConfirmedDB 1).2 = true ∧
    processConfirmations scnCfg 2000 3 (fun _ => false) (fun _ => false) scnConfirmedDB
      = (scnConfirmedDB, 0, 0) :=
  ⟨by decide, by decide, by decide, by decide⟩

/-- C10: containment of component errors.  Whenever the three uncaught
reads succeed — the top-level current height read (line 300), the
last-scanned-block lookup (line 301), and the pending-transactions fetch
at the start of `processConfirmations` (line 151) — `runDepositScanner`
returns its statistics record no matter which caught component-internal
call sites fail, and each of the four components absorbs its own failures
into a benign value: a failing log fetch yields no transfers, failing
per-transfer insertion bodies record nothing, failing per-transaction
confirmation bodies update nothing, and a failing crediting transaction
reports "not applied" with the store untouched.  (An error in any of the
three uncaught reads does escape — see the accompanying
counterexample.) -/
theorem runDepositScanner_contains_component_errors
    (f : Faults) (cfg : Config) (chain : Chain) (now : Nat) (db : DB)
    (h1 : f.heightFail = false) (h2 : f.lastScanFail = false)
    (h3 : f.pendingFetchFail = false) :
    (∃ out, runDepositScannerE f cfg chain now db = Except.ok out) ∧
    (∀ a b, scanForDeposits cfg chain a b true = []) ∧
    (∀ (db' : DB) ts, processDetectedTransfers (fun _ _ => true) db' ts = (db', 0)) ∧
    (∀ (db' : DB) hh, processConfirmations cfg hh now (fun _ => true) (fun _ => true) db'
        = (db', 0, 0)) ∧
    (∀ (db' : DB) id, creditUserDeposit now true db' id = (db', false)) := by
  refine ⟨?_, ?_, ?_, ?_, ?_⟩
  · refine ⟨runPassCore cfg chain now f db, ?_⟩
    simp [runDepositScannerE, h1, h2, h3]
  · intro a b
    unfold scanForDeposits
    split
    · rfl
    · rfl
  · intro db' ts
    have aux : ∀ (l : List DetectedTransfer) (acc : DB × Nat),
        l.foldl (detStep (fun _ _ => true)) acc = acc := by
      intro l
      induction l with
      | nil => intro acc; rfl
      | cons x xs ih => intro acc; rw [List.foldl_cons]; rw [show detStep (fun _ _ => true) acc x = acc from rfl]; exact ih acc
    exact aux ts (db', 0)
  · intro db' hh
    have aux : ∀ (l : List OnchainTransaction) (acc : DB × Nat × Nat),
        l.foldl (confStep cfg hh now (fun _ => true) (fun _ => true)) acc = acc := by
      intro l
      induction l with
      | nil => intro acc; rfl
      | cons x xs ih =>
        intro acc
        rw [List.foldl_cons]
        rw [show confStep cfg hh now (fun _ => true) (fun _ => true) acc x = acc from rfl]
        exact ih acc
    exact aux (pendingTxsOf db') (db', 0, 0)
  · intro db' id
    unfold creditUserDeposit
    cases hr : creditRead db' id with
    | none => rfl
    | some s =>
      unfold creditCommit
      by_cases hany : (db'.ledger.any fun l => l.idempotencyKey == idempotencyKeyOf s.tx) = true
      · simp [hany]
      · simp only [Bool.not_eq_true] at hany
        simp [hany]

/-- C10 counterexample: an error in the top-level `getCurrentBlock()` call
(line 300 of the source, not wrapped in any try/catch) escapes
`runDepositScanner` as an exception instead of a statistics record, and so
does an error in the `onchainTransaction.findMany` at line 151 of
`processConfirmations` (reached through the uncaught await at line 317
when the pass scans a non-empty range) — refuting the claim that the pass
always returns its statistics record. -/
theorem height_error_escapes_pass :
    runDepositScannerE faultHeight scnCfg scnChain12 3 scnBlock10DB
      = Except.error "getCurrentBlock failed" ∧
    runDepositScannerE faultPendingFetch scnCfgNone scnChain1100 3 scnBlock10DB
      = Except.error "onchainTransaction findMany failed" :=
  ⟨rfl, rfl⟩

/-- C10 witness: with every caught component-internal call site failing
but the three uncaught reads succeeding, the pass still returns a
statistics record. -/
theorem runDepositScanner_contains_component_errors_witness :
    faultComponents.heightFail = false ∧ faultComponents.lastScanFail = false ∧
    faultComponents.pendingFetchFail = false ∧
    ∃ out, runDepositScannerE faultComponents scnCfg scnChain12 3 scnBlock10DB
      = Except.ok out :=
  ⟨rfl, rfl, rfl,
   (runDepositScanner_contains_component_errors faultComponents scnCfg scnChain12 3
      scnBlock10DB rfl rfl rfl).1⟩

/-- C9: behaviour with an unusable treasury address.  With the deposit
address unset, empty or the placeholder, transfer detection is skipped
with a logged signal and reports no transfers, so a pass records no new
transfers (and inserts no rows); but the pass itself is not refused: the
confirmation tracker and the crediting engine still run over previously
recorded transfers and may mutate state (see the accompanying
counterexample). -/
theorem unconfigured_address_skips_detection_only
    (cfg : Config) (chain : Chain) (now : Nat) (f : Faults) (db : DB)
    (hun : addrUnconfigured cfg = true) :
    (∀ a b lf, scanForDeposits cfg chain a b lf = []) ∧
    (runPassCore cfg chain now f db).2.newDeposits = 0 ∧
    (runPassCore cfg chain now f db).1.txs.length = db.txs.length := by
  have hscan : ∀ a b lf, scanForDeposits cfg chain a b lf = [] := by
    intro a b lf
    unfold scanForDeposits
    rw [if_pos hun]
  refine ⟨hscan, ?_⟩
  unfold runPassCore
  by_cases hz : chain.currentBlock - 1 ≤ getLastScannedBlock chain.currentBlock db + 1
  · rw [if_pos hz]
    exact ⟨rfl, rfl⟩
  · rw [if_neg hz]
    rw [hscan]
    constructor
    · rfl
    · show (processConfirmations cfg chain.currentBlock now f.confFail f.creditFail
          (processDetectedTransfers f.insFail db []).1).1.txs.length = db.txs.length
      have h1 : processDetectedTransfers f.insFail db [] = (db, 0) := rfl
      rw [h1]
      have h2 := processConfirmations_txs_map_id cfg chain.currentBlock now
        f.confFail f.creditFail db
      calc (processConfirmations cfg chain.currentBlock now f.confFail f.creditFail db).1.txs.length
          = ((processConfirmations cfg chain.currentBlock now f.confFail f.creditFail db).1.txs.map
              (fun t => t.id)).length := by rw [List.length_map]
        _ = (db.txs.map (fun t => t.id)).length := by rw [h2]
        _ = db.txs.length := by rw [List.length_map]

/-- C9 counterexample: with no treasury address configured, a pass over a
store holding a pending transfer still mutates state — it advances the
transfer's confirmations and status — refuting the claim that such a pass
performs no state mutation. -/
theorem unconfigured_pass_still_mutates :
    addrUnconfigured scnCfgNone = true ∧
    (runPassCore scnCfgNone scnChain1100 3 noFaults scnPendingDB).1 ≠ scnPendingDB ∧
    (runPassCore scnCfgNone scnChain1100 3 noFaults scnPendingDB).2.updatedConfirmations = 1 := by
  refine ⟨rfl, by decide, by decide⟩

/-- C9 witness: detection skipped with no rows recorded on the concrete
unconfigured pass. -/
theorem unconfigured_address_skips_detection_only_witness :
    addrUnconfigured scnCfgNone = true ∧
    scanForDeposits scnCfgNone scnChain1100 0 50 false = [] ∧
    (runPassCore scnCfgNone scnChain1100 3 noFaults scnPendingDB).2.newDeposits = 0 ∧
    (runPassCore scnCfgNone scnChain1100 3 noFaults scnPendingDB).1.txs.length
      = scnPendingDB.txs.length :=
  ⟨rfl,
   (unconfigured_address_skips_detection_only scnCfgNone scnChain1100 3 noFaults
      scnPendingDB rfl).1 0 50 false,
   (unconfigured_address_skips_detection_only scnCfgNone scnChain1100 3 noFaults
      scnPendingDB rfl).2.1,
   (unconfigured_address_skips_detection_only scnCfgNone scnChain1100 3 noFaults
      scnPendingDB rfl).2.2⟩

theorem detStep_pair_count (insFail : String → Nat → Bool) (hks : String)
    (kli : Nat) (acc : DB × Nat) (t : DetectedTransfer)
    (hp : ∃ tx ∈ acc.1.txs, tx.txHash = hks ∧ tx.logIndex = kli) :
    ((detStep insFail acc t).1.txs.countP
        (fun tx => tx.txHash == hks && tx.logIndex == kli)
      = acc.1.txs.countP (fun tx => tx.txHash == hks && tx.logIndex == kli)) ∧
    (∃ tx ∈ (detStep insFail acc t).1.txs, tx.txHash = hks ∧ tx.logIndex = kli) := by
  have hres : ∀ (e : OnchainTransaction), e.txHash = t.txHash → e.logIndex = t.logIndex →
      ∀ (d2 : DB), d2.txs = acc.1.txs ++ [e] →
      ¬(t.txHash = hks ∧ t.logIndex = kli) →
      (d2.txs.countP (fun tx => tx.txHash == hks && tx.logIndex == kli)
        = acc.1.txs.countP (fun tx => tx.txHash == hks && tx.logIndex == kli)) ∧
      (∃ tx ∈ d2.txs, tx.txHash = hks ∧ tx.logIndex = kli) := by
    intro e heh hel d2 hd2 hne
    constructor
    · rw [hd2, List.countP_append]
      have hz : List.countP (fun tx => tx.txHash == hks && tx.logIndex == kli) [e] = 0 := by
        rw [List.countP_eq_zero]
        intro a ha
        rw [List.mem_singleton] at ha
        subst ha
        simp only [Bool.and_eq_true, beq_iff_eq]
        rintro ⟨hh, hl⟩
        exact hne ⟨heh ▸ hh, hel ▸ hl⟩
      rw [hz, Nat.add_zero]
    · obtain ⟨tx, htx, hh, hl⟩ := hp
      exact ⟨tx, by rw [hd2]; exact List.mem_append_left _ htx, hh, hl⟩
  simp only [detStep]
  by_cases h1 : insFail t.txHash t.logIndex = true
  · rw [if_pos h1]; exact ⟨rfl, hp⟩
  · rw [if_neg (by simp [h1])]
    by_cases h2 : pairRecorded acc.1 t.txHash t.logIndex = true
    · rw [if_pos h2]; exact ⟨rfl, hp⟩
    · rw [if_neg (by simp [h2])]
      have hne : ¬(t.txHash = hks ∧ t.logIndex = kli) := by
        rintro ⟨rfl, rfl⟩
        obtain ⟨tx, htx, hh, hl⟩ := hp
        apply h2
        unfold pairRecorded
        rw [List.find?_isSome]
        exact ⟨tx, htx, by simp [hh, hl]⟩
      cases hmi : matchIntent acc.1 t.fromAddress with
      | none => exact hres _ rfl rfl _ rfl hne
      | some i => exact hres _ rfl rfl _ rfl hne

theorem processDetectedTransfers_foldl_pair_count (insFail : String → Nat → Bool)
    (hks : String) (kli : Nat) (ts : List DetectedTransfer) :
    ∀ acc : DB × Nat,
      (∃ tx ∈ acc.1.txs, tx.txHash = hks ∧ tx.logIndex = kli) →
      (ts.foldl (detStep insFail) acc).1.txs.countP
          (fun tx => tx.txHash == hks && tx.logIndex == kli)
        = acc.1.txs.countP (fun tx => tx.txHash == hks && tx.logIndex == kli) := by
  induction ts with
  | nil => intro acc _; rfl
  | cons x xs ih =>
    intro acc hp
    rw [List.foldl_cons]
    obtain ⟨hcount, hp'⟩ := detStep_pair_count insFail hks kli acc x hp
    rw [ih _ hp', hcount]

/-- C6: idempotent re-observation and no re-crediting.  For any raw
transfer key (hash, log index) already recorded in the store, a run of
`processDetectedTransfers` over any batch leaves the number of rows with
that key unchanged (no second row is ever created, lines 88-97 of the
source); an invocation of `creditUserDeposit` on a transfer already in
state `CREDITED` leaves the store untouched and reports "not applied"
(lines 198-200); and a transfer in state `CREDITED` is never even selected
by the confirmation pass (lines 151-155). -/
theorem reobservation_idempotent (insFail : String → Nat → Bool) (db : DB)
    (ts : List DetectedTransfer) (hks : String) (kli : Nat)
    (hrec : ∃ tx ∈ db.txs, tx.txHash = hks ∧ tx.logIndex = kli) :
    ((processDetectedTransfers insFail db ts).1.txs.countP
        (fun tx => tx.txHash == hks && tx.logIndex == kli)
      = db.txs.countP (fun tx => tx.txHash == hks && tx.logIndex == kli)) ∧
    (∀ id tx', db.txs.find? (fun x => x.id == id) = some tx' →
        tx'.status = TxStatus.CREDITED →
        ∀ now fault, creditUserDeposit now fault db id = (db, false)) ∧
    (∀ tx' ∈ db.txs, tx'.status = TxStatus.CREDITED → tx' ∉ pendingTxsOf db) := by
  refine ⟨?_, ?_, ?_⟩
  · exact processDetectedTransfers_foldl_pair_count insFail hks kli ts (db, 0) hrec
  · intro id tx' hfind hst now fault
    unfold creditUserDeposit creditRead
    rw [hfind]
    simp [hst]
  · intro tx' htx hst hmem
    rw [pendingTxsOf, List.mem_filter] at hmem
    rcases hmem with ⟨_, hcond⟩
    rw [hst] at hcond
    simp at hcond

/-- C6 witness: re-observing the already-recorded transfer key on the
concrete store creates no second row. -/
theorem reobservation_idempotent_witness :
    (∃ tx ∈ scnConfirmedDB.txs, tx.txHash = "0xh1" ∧ tx.logIndex = 0) ∧
    (processDetectedTransfers (fun _ _ => false) scnConfirmedDB
        [⟨"0xh1", 0, "0xab", "0xtreasury", 5, 100⟩]).1.txs.countP
        (fun tx => tx.txHash == "0xh1" && tx.logIndex == 0)
      = scnConfirmedDB.txs.countP (fun tx => tx.txHash == "0xh1" && tx.logIndex == 0) :=
  ⟨by decide,
   (reobservation_idempotent (fun _ _ => false) scnConfirmedDB
      [⟨"0xh1", 0, "0xab", "0xtreasury", 5, 100⟩] "0xh1" 0 (by decide)).1⟩

theorem creditUserDeposit_read_none (now : Nat) (fl : Bool) (db : DB) (id : Nat)
    (hr : creditRead db id = none) : creditUserDeposit now fl db id = (db, false) := by
  unfold creditUserDeposit
  rw [hr]

theorem creditUserDeposit_read_some (now : Nat) (fl : Bool) (db : DB) (id : Nat)
    (s : CreditSnap) (hr : creditRead db id = some s) :
    creditUserDeposit now fl db id = creditCommit now fl db s := by
  unfold creditUserDeposit
  rw [hr]

theorem creditCommit_dup (now : Nat) (fl : Bool) (db : DB) (s : CreditSnap)
    (hany : (db.ledger.any fun l => l.idempotencyKey == idempotencyKeyOf s.tx) = true) :
    creditCommit now fl db s = (db, false) := by
  unfold creditCommit
  rw [if_pos hany]

theorem creditCommit_fault (now : Nat) (db : DB) (s : CreditSnap)
    (hany : (db.ledger.any fun l => l.idempotencyKey == idempotencyKeyOf s.tx) = false) :
    creditCommit now true db s = (db, false) := by
  simp [creditCommit, hany]

theorem creditCommit_applies (now : Nat) (db : DB) (s : CreditSnap)
    (hany : (db.ledger.any fun l => l.idempotencyKey == idempotencyKeyOf s.tx) = false) :
    creditCommit now false db s = (creditApply now db s, true) := by
  simp [creditCommit, hany]

theorem creditRead_eq_none (db : DB) (id : Nat)
    (hf : db.txs.find? (fun t => t.id == id) = none) : creditRead db id = none := by
  unfold creditRead
  rw [hf]

theorem creditRead_eq_found (db : DB) (id : Nat) (tx0 : OnchainTransaction)
    (hf : db.txs.find? (fun t => t.id == id) = some tx0) :
    creditRead db id = if tx0.status = TxStatus.CREDITED then none
      else (resolveUser db tx0).map (fun u => ⟨tx0, u⟩) := by
  unfold creditRead
  rw [hf]

theorem creditRead_tx_id (db : DB) (id : Nat) (s : CreditSnap)
    (hr : creditRead db id = some s) : s.tx.id = id := by
  cases hf : db.txs.find? (fun t => t.id == id) with
  | none => rw [creditRead_eq_none db id hf] at hr; exact absurd hr (by simp)
  | some tx0 =>
    rw [creditRead_eq_found db id tx0 hf] at hr
    have hid := List.find?_some hf
    by_cases hst : tx0.status = TxStatus.CREDITED
    · rw [if_pos hst] at hr; exact absurd hr (by simp)
    · rw [if_neg hst] at hr
      cases hu : resolveUser db tx0 with
      | none => rw [hu] at hr; exact absurd hr (by simp)
      | some u =>
        rw [hu] at hr
        simp only [Option.map_some'] at hr
        have hs := Option.some.inj hr
        rw [← hs]
        simpa using hid

theorem creditUserDeposit_status_conf (now : Nat) (fl : Bool) (db : DB) (id : Nat) :
    ∀ rec ∈ (creditUserDeposit now fl db id).1.txs, ∃ r0 ∈ db.txs,
      rec.id = r0.id ∧ rec.confirmations = r0.confirmations ∧
      (rec.status = r0.status ∨ rec.status = TxStatus.CREDITED) := by
  intro rec hrec
  cases hr : creditRead db id with
  | none =>
    rw [creditUserDeposit_read_none now fl db id hr] at hrec
    exact ⟨rec, hrec, rfl, rfl, Or.inl rfl⟩
  | some s =>
    rw [creditUserDeposit_read_some now fl db id s hr] at hrec
    cases hany : db.ledger.any fun l => l.idempotencyKey == idempotencyKeyOf s.tx with
    | true =>
      rw [creditCommit_dup now fl db s hany] at hrec
      exact ⟨rec, hrec, rfl, rfl, Or.inl rfl⟩
    | false =>
      cases fl with
      | true =>
        rw [creditCommit_fault now db s hany] at hrec
        exact ⟨rec, hrec, rfl, rfl, Or.inl rfl⟩
      | false =>
        rw [creditCommit_applies now db s hany] at hrec
        simp only [creditApply] at hrec
        rw [List.mem_map] at hrec
        obtain ⟨r0, hr0, hg⟩ := hrec
        by_cases hc : (r0.id == s.tx.id) = true
        · rw [if_pos hc] at hg
          subst hg
          exact ⟨r0, hr0, rfl, rfl, Or.inr rfl⟩
        · rw [if_neg hc] at hg
          subst hg
          exact ⟨r0, hr0, rfl, rfl, Or.inl rfl⟩

theorem creditUserDeposit_preserves_ne (now : Nat) (fl : Bool) (db : DB) (id : Nat) :
    ∀ rec ∈ (creditUserDeposit now fl db id).1.txs, rec.id ≠ id → rec ∈ db.txs := by
  intro rec hrec hne
  cases hr : creditRead db id with
  | none =>
    rw [creditUserDeposit_read_none now fl db id hr] at hrec
    exact hrec
  | some s =>
    rw [creditUserDeposit_read_some now fl db id s hr] at hrec
    cases hany : db.ledger.any fun l => l.idempotencyKey == idempotencyKeyOf s.tx with
    | true =>
      rw [creditCommit_dup now fl db s hany] at hrec
      exact hrec
    | false =>
      cases fl with
      | true =>
        rw [creditCommit_fault now db s hany] at hrec
        exact hrec
      | false =>
        rw [creditCommit_applies now db s hany] at hrec
        simp only [creditApply] at hrec
        rw [List.mem_map] at hrec
        obtain ⟨r0, hr0, hg⟩ := hrec
        by_cases hc : (r0.id == s.tx.id) = true
        · exfalso
          apply hne
          have h5 : rec.id = r0.id := by rw [if_pos hc] at hg; rw [← hg]
          have hbeq : r0.id = s.tx.id := by simpa using hc
          rw [h5, hbeq]
          exact creditRead_tx_id db id s hr
        · rw [if_neg hc] at hg
          rw [← hg]
          exact hr0

theorem trackDB_mem_own (cfg : Config) (h : Int) (tx : OnchainTransaction) (db : DB) :
    ∀ rec ∈ (trackDB cfg h tx db).txs, rec.id = tx.id →
      rec.confirmations = getConfirmations h tx.blockNumber ∧
      rec.status = trackStatus cfg.confirmationThreshold tx.status
        (getConfirmations h tx.blockNumber) := by
  intro rec hrec hrid
  unfold trackDB at hrec
  rw [List.mem_map] at hrec
  obtain ⟨r0, hr0, hg⟩ := hrec
  unfold trackTxUpd at hg
  by_cases hc : (r0.id == tx.id) = true
  · rw [if_pos hc] at hg
    subst hg
    exact ⟨rfl, rfl⟩
  · exfalso
    rw [if_neg hc] at hg
    subst hg
    exact hc (by simpa using hrid)

theorem trackDB_mem_ne (cfg : Config) (h : Int) (tx : OnchainTransaction) (db : DB) :
    ∀ rec ∈ (trackDB cfg h tx db).txs, rec.id ≠ tx.id → rec ∈ db.txs := by
  intro rec hrec hrid
  unfold trackDB at hrec
  rw [List.mem_map] at hrec
  obtain ⟨r0, hr0, hg⟩ := hrec
  unfold trackTxUpd at hg
  by_cases hc : (r0.id == tx.id) = true
  · exfalso
    apply hrid
    rw [if_pos hc] at hg
    have h5 : rec.id = r0.id := by rw [← hg]
    rw [h5]
    simpa using hc
  · rw [if_neg hc] at hg
    rw [← hg]
    exact hr0

theorem confStep_preserves_ne (cfg : Config) (h : Int) (now : Nat)
    (cff crff : Nat → Bool) (acc : DB × Nat × Nat) (tx' : OnchainTransaction)
    (i : Nat) (hne : tx'.id ≠ i) :
    ∀ rec ∈ (confStep cfg h now cff crff acc tx').1.txs, rec.id = i → rec ∈ acc.1.txs := by
  intro rec hrec hid
  have hidne : rec.id ≠ tx'.id := by rw [hid]; exact fun hh => hne hh.symm
  cases h1 : cff tx'.id with
  | true =>
    rw [confStep_skip cfg h now cff crff acc tx' h1] at hrec
    exact hrec
  | false =>
    by_cases h3 : trackStatus cfg.confirmationThreshold tx'.status
        (getConfirmations h tx'.blockNumber) = TxStatus.CONFIRMED ∧
        tx'.status ≠ TxStatus.CREDITED
    · rw [confStep_go_credit cfg h now cff crff acc tx' h1 h3] at hrec
      have h4 := creditUserDeposit_preserves_ne now (crff tx'.id)
        (trackDB cfg h tx' acc.1) tx'.id rec hrec hidne
      exact trackDB_mem_ne cfg h tx' acc.1 rec h4 hidne
    · rw [confStep_go_nocredit cfg h now cff crff acc tx' h1 h3] at hrec
      exact trackDB_mem_ne cfg h tx' acc.1 rec hrec hidne

theorem confStep_own (cfg : Config) (h : Int) (now : Nat) (crff : Nat → Bool)
    (acc : DB × Nat × Nat) (tx : OnchainTransaction) :
    ∀ rec ∈ (confStep cfg h now (fun _ => false) crff acc tx).1.txs, rec.id = tx.id →
      rec.confirmations = getConfirmations h tx.blockNumber ∧
      (rec.status = trackStatus cfg.confirmationThreshold tx.status
          (getConfirmations h tx.blockNumber) ∨
       (trackStatus cfg.confirmationThreshold tx.status
          (getConfirmations h tx.blockNumber) = TxStatus.CONFIRMED ∧
        rec.status = TxStatus.CREDITED)) := by
  intro rec hrec hid
  by_cases h3 : trackStatus cfg.confirmationThreshold tx.status
      (getConfirmations h tx.blockNumber) = TxStatus.CONFIRMED ∧
      tx.status ≠ TxStatus.CREDITED
  · rw [confStep_go_credit cfg h now (fun _ => false) crff acc tx rfl h3] at hrec
    obtain ⟨r0, hr0mem, hident, hconf, hst⟩ :=
      creditUserDeposit_status_conf now (crff tx.id) (trackDB cfg h tx acc.1) tx.id rec hrec
    have hr0id : r0.id = tx.id := by rw [← hident]; exact hid
    obtain ⟨hc1, hc2⟩ := trackDB_mem_own cfg h tx acc.1 r0 hr0mem hr0id
    refine ⟨hconf.trans hc1, ?_⟩
    rcases hst with hss | hss
    · exact Or.inl (hss.trans hc2)
    · exact Or.inr ⟨h3.1, hss⟩
  · rw [confStep_go_nocredit cfg h now (fun _ => false) crff acc tx rfl h3] at hrec
    obtain ⟨hc1, hc2⟩ := trackDB_mem_own cfg h tx acc.1 rec hrec hid
    exact ⟨hc1, Or.inl hc2⟩

theorem confFold_preserves (cfg : Config) (h : Int) (now : Nat)
    (cff crff : Nat → Bool) (i : Nat) (C : Int) (NS : TxStatus)
    (post : List OnchainTransaction) :
    ∀ acc : DB × Nat × Nat, (∀ t ∈ post, t.id ≠ i) →
      (∀ rec ∈ acc.1.txs, rec.id = i → rec.confirmations = C ∧
        (rec.status = NS ∨ (NS = TxStatus.CONFIRMED ∧ rec.status = TxStatus.CREDITED))) →
      ∀ rec ∈ (post.foldl (confStep cfg h now cff crff) acc).1.txs, rec.id = i →
        rec.confirmations = C ∧
        (rec.status = NS ∨ (NS = TxStatus.CONFIRMED ∧ rec.status = TxStatus.CREDITED)) := by
  induction post with
  | nil => intro acc _ hacc; exact hacc
  | cons x xs ih =>
    intro acc hne hacc
    rw [List.foldl_cons]
    refine ih _ (fun t ht => hne t (List.mem_cons_of_mem x ht)) ?_
    intro rec hrec hid
    have hmem := confStep_preserves_ne cfg h now cff crff acc x i
      (hne x (List.mem_cons_self x xs)) rec hrec hid
    exact hacc rec hmem hid

/-- C5: the confirmation tracker's state machine over one pass.  For every
fetched transfer in state `PENDING` or `CONFIRMING` (assuming, as in the
source configuration, a threshold of at least 6 and distinct row ids), the
pass persists `confirmations = currentHeight - sourceBlock` on the row —
even when the status does not change — and sets the status as the source
computes it (lines 159-172): `confirmations ≥ threshold` yields
`CONFIRMED` (after which the same pass may advance it further to
`CREDITED` via the crediting engine), `6 ≤ confirmations < threshold`
yields `CONFIRMING`, and `confirmations < 6` leaves the status unchanged —
a `PENDING` transfer stays `PENDING`, but a `CONFIRMING` transfer is not
demoted to `PENDING` (see the accompanying counterexample). -/
theorem processConfirmations_state_machine
    (cfg : Config) (h : Int) (now : Nat) (db : DB)
    (hthr : 6 ≤ cfg.confirmationThreshold)
    (hids : (db.txs.map (fun t => t.id)).Nodup)
    (tx : OnchainTransaction) (hmem : tx ∈ db.txs)
    (hsel : tx.status = TxStatus.PENDING ∨ tx.status = TxStatus.CONFIRMING) :
    ∃ rec ∈ (processConfirmations cfg h now (fun _ => false) (fun _ => false) db).1.txs,
      rec.id = tx.id ∧
      rec.confirmations = h - tx.blockNumber ∧
      (h - tx.blockNumber < 6 → rec.status = tx.status) ∧
      (6 ≤ h - tx.blockNumber → h - tx.blockNumber < cfg.confirmationThreshold →
        rec.status = TxStatus.CONFIRMING) ∧
      (cfg.confirmationThreshold ≤ h - tx.blockNumber →
        rec.status = TxStatus.CONFIRMED ∨ rec.status = TxStatus.CREDITED) := by
  have hmemP : tx ∈ pendingTxsOf db := by
    unfold pendingTxsOf
    rw [List.mem_filter]
    refine ⟨hmem, ?_⟩
    rcases hsel with h9 | h9 <;> simp [h9]
  obtain ⟨pre, post, hP⟩ := List.append_of_mem hmemP
  have hPids : ((pendingTxsOf db).map (fun t => t.id)).Nodup :=
    List.Sublist.nodup
      (List.Sublist.map (fun t => t.id) (List.filter_sublist db.txs)) hids
  have hpost : ∀ t ∈ post, t.id ≠ tx.id := by
    intro t ht heq
    have hx : List.Sublist (tx.id :: post.map (fun t => t.id))
        ((pendingTxsOf db).map (fun t => t.id)) := by
      rw [hP, List.map_append, List.map_cons]
      exact List.sublist_append_right _ _
    have hsub := List.Sublist.nodup hx hPids
    exact (List.nodup_cons.mp hsub).1 (List.mem_map.mpr ⟨t, ht, heq⟩)
  have hrun : processConfirmations cfg h now (fun _ => false) (fun _ => false) db
      = post.foldl (confStep cfg h now (fun _ => false) (fun _ => false))
          (confStep cfg h now (fun _ => false) (fun _ => false)
            (pre.foldl (confStep cfg h now (fun _ => false) (fun _ => false)) (db, 0, 0)) tx) := by
    unfold processConfirmations
    rw [hP, List.foldl_append, List.foldl_cons]
  have hinv1 := confStep_own cfg h now (fun _ => false)
    (pre.foldl (confStep cfg h now (fun _ => false) (fun _ => false)) (db, 0, 0)) tx
  have hinv := confFold_preserves cfg h now (fun _ => false) (fun _ => false) tx.id
    (getConfirmations h tx.blockNumber)
    (trackStatus cfg.confirmationThreshold tx.status (getConfirmations h tx.blockNumber))
    post _ hpost hinv1
  have hidsfinal : (post.foldl (confStep cfg h now (fun _ => false) (fun _ => false))
        (confStep cfg h now (fun _ => false) (fun _ => false)
          (pre.foldl (confStep cfg h now (fun _ => false) (fun _ => false)) (db, 0, 0))
          tx)).1.txs.map (fun t => t.id)
      = db.txs.map (fun t => t.id) := by
    rw [processConfirmations_foldl_txs_map_id, confStep_txs_map_id,
        processConfirmations_foldl_txs_map_id]
  have hpres : tx.id ∈ (post.foldl (confStep cfg h now (fun _ => false) (fun _ => false))
        (confStep cfg h now (fun _ => false) (fun _ => false)
          (pre.foldl (confStep cfg h now (fun _ => false) (fun _ => false)) (db, 0, 0))
          tx)).1.txs.map (fun t => t.id) := by
    rw [hidsfinal]
    exact List.mem_map.mpr ⟨tx, hmem, rfl⟩
  obtain ⟨rec, hrecmem, hrecid⟩ := List.mem_map.mp hpres
  obtain ⟨hconf, hstat⟩ := hinv rec hrecmem hrecid
  rw [hrun]
  refine ⟨rec, hrecmem, hrecid, hconf, ?_, ?_, ?_⟩
  · intro hlt
    have hnseq : trackStatus cfg.confirmationThreshold tx.status
        (getConfirmations h tx.blockNumber) = tx.status := by
      unfold trackStatus
      rw [if_neg (by unfold getConfirmations; omega),
          if_neg (by unfold getConfirmations; omega)]
    rcases hstat with h1 | ⟨h2, _⟩
    · rw [hnseq] at h1; exact h1
    · exfalso
      rw [hnseq] at h2
      rcases hsel with h9 | h9 <;> rw [h9] at h2 <;> exact TxStatus.noConfusion h2
  · intro h6 hlt2
    have hnseq : trackStatus cfg.confirmationThreshold tx.status
        (getConfirmations h tx.blockNumber) = TxStatus.CONFIRMING := by
      unfold trackStatus
      rw [if_neg (by unfold getConfirmations; omega),
          if_pos (by unfold getConfirmations; omega)]
    rcases hstat with h1 | ⟨h2, _⟩
    · rw [hnseq] at h1; exact h1
    · exfalso
      rw [hnseq] at h2
      exact TxStatus.noConfusion h2
  · intro hge
    have hnseq : trackStatus cfg.confirmationThreshold tx.status
        (getConfirmations h tx.blockNumber) = TxStatus.CONFIRMED := by
      unfold trackStatus
      rw [if_pos (by unfold getConfirmations; omega)]
    rcases hstat with h1 | ⟨_, h3⟩
    · rw [hnseq] at h1; exact Or.inl h1
    · exact Or.inr h3

/-- C5 counterexample: a `CONFIRMING` transfer at block 100 seen at chain
height 103 has 3 confirmations; the pass persists the count but leaves the
status `CONFIRMING` — the source's `else` keeps the fetched status
(lines 162-167) — whereas the claim says confirmations below 6 put the
transfer in `PENDING`. -/
theorem confirming_transfer_not_demoted :
    (processConfirmations scnCfg 103 3 (fun _ => false) (fun _ => false) scnConfirmingDB).1.txs
      = [⟨1, "0xh2", 0, "0xcd", "0xtreasury", 5, 100, TxStatus.CONFIRMING, 3, none, none⟩] ∧
    TxStatus.CONFIRMING ≠ TxStatus.PENDING :=
  ⟨by decide, by decide⟩

/-- C5 witness: the tracker state machine evaluated on the concrete
one-row store at height 103. -/
theorem processConfirmations_state_machine_witness :
    (6 : Int) ≤ scnCfg.confirmationThreshold ∧
    (scnConfirmingDB.txs.map (fun t => t.id)).Nodup ∧
    scnConfirmingTx ∈ scnConfirmingDB.txs ∧
    (scnConfirmingTx.status = TxStatus.PENDING ∨
      scnConfirmingTx.status = TxStatus.CONFIRMING) ∧
    ∃ rec ∈ (processConfirmations scnCfg 103 3 (fun _ => false) (fun _ => false)
        scnConfirmingDB).1.txs,
      rec.id = scnConfirmingTx.id ∧
      rec.confirmations = 103 - scnConfirmingTx.blockNumber ∧
      (103 - scnConfirmingTx.blockNumber < 6 → rec.status = scnConfirmingTx.status) ∧
      (6 ≤ 103 - scnConfirmingTx.blockNumber →
        103 - scnConfirmingTx.blockNumber < scnCfg.confirmationThreshold →
        rec.status = TxStatus.CONFIRMING) ∧
      (scnCfg.confirmationThreshold ≤ 103 - scnConfirmingTx.blockNumber →
        rec.status = TxStatus.CONFIRMED ∨ rec.status = TxStatus.CREDITED) :=
  ⟨by decide, by decide, by decide, Or.inr rfl,
   processConfirmations_state_machine scnCfg 103 3 scnConfirmingDB (by decide) (by decide)
     scnConfirmingTx (by decide) (Or.inr rfl)⟩

theorem raceStep_read (now txId : Nat) (st : CreditRace) (i : Nat) :
    raceStep now txId st (CreditEv.read i)
      = ⟨st.db, Function.update st.snaps i (creditRead st.db txId)⟩ := rfl

theorem raceStep_commit_none (now txId : Nat) (st : CreditRace) (i : Nat)
    (hn : st.snaps i = none) : raceStep now txId st (CreditEv.commit i) = st := by
  show (match st.snaps i with
    | none => st
    | some s => (⟨(creditCommit now false st.db s).1, st.snaps⟩ : CreditRace)) = st
  rw [hn]

theorem raceStep_commit_some (now txId : Nat) (st : CreditRace) (i : Nat)
    (s : CreditSnap) (hs : st.snaps i = some s) :
    raceStep now txId st (CreditEv.commit i)
      = ⟨(creditCommit now false st.db s).1, st.snaps⟩ := by
  show (match st.snaps i with
    | none => st
    | some s => (⟨(creditCommit now false st.db s).1, st.snaps⟩ : CreditRace))
    = ⟨(creditCommit now false st.db s).1, st.snaps⟩
  rw [hs]

theorem raceRun_nil (now txId : Nat) (st : CreditRace) :
    raceRun now txId st [] = st := rfl

theorem raceRun_cons (now txId : Nat) (st : CreditRace) (e : CreditEv)
    (es : List CreditEv) :
    raceRun now txId st (e :: es) = raceRun now txId (raceStep now txId st e) es := by
  unfold raceRun
  rw [List.foldl_cons]

theorem raceRun_append (now txId : Nat) (st : CreditRace) (a b : List CreditEv) :
    raceRun now txId st (a ++ b) = raceRun now txId (raceRun now txId st a) b := by
  unfold raceRun
  rw [List.foldl_append]

theorem raceStep_inv (now txId : Nat) (db0 db1 : DB) (s0 : CreditSnap)
    (hA : creditRead db0 txId = some s0) (hB : creditRead db1 txId = none)
    (hC : (creditCommit now false db0 s0).1 = db1)
    (hD : (creditCommit now false db1 s0).1 = db1)
    (st : CreditRace) (hdb : st.db = db0 ∨ st.db = db1)
    (hsn : ∀ j, st.snaps j = none ∨ st.snaps j = some s0) (e : CreditEv) :
    ((raceStep now txId st e).db = db0 ∨ (raceStep now txId st e).db = db1) ∧
    (∀ j, (raceStep now txId st e).snaps j = none ∨
          (raceStep now txId st e).snaps j = some s0) := by
  cases e with
  | read ik =>
    rw [raceStep_read]
    refine ⟨hdb, ?_⟩
    intro j
    show Function.update st.snaps ik (creditRead st.db txId) j = none ∨
         Function.update st.snaps ik (creditRead st.db txId) j = some s0
    by_cases hj : j = ik
    · subst hj
      rw [Function.update_same]
      rcases hdb with h0 | h0
      · rw [h0, hA]; exact Or.inr rfl
      · rw [h0, hB]; exact Or.inl rfl
    · rw [Function.update_noteq hj]
      exact hsn j
  | commit ik =>
    rcases hsn ik with hn | hs
    · rw [raceStep_commit_none now txId st ik hn]
      exact ⟨hdb, hsn⟩
    · rw [raceStep_commit_some now txId st ik s0 hs]
      refine ⟨?_, hsn⟩
      rcases hdb with h0 | h0
      · rw [h0]
        show (creditCommit now false db0 s0).1 = db0 ∨ (creditCommit now false db0 s0).1 = db1
        exact Or.inr hC
      · rw [h0]
        show (creditCommit now false db1 s0).1 = db0 ∨ (creditCommit now false db1 s0).1 = db1
        exact Or.inr hD

theorem raceRun_inv (now txId : Nat) (db0 db1 : DB) (s0 : CreditSnap)
    (hA : creditRead db0 txId = some s0) (hB : creditRead db1 txId = none)
    (hC : (creditCommit now false db0 s0).1 = db1)
    (hD : (creditCommit now false db1 s0).1 = db1) (evs : List CreditEv) :
    ∀ st : CreditRace, (st.db = db0 ∨ st.db = db1) →
      (∀ j, st.snaps j = none ∨ st.snaps j = some s0) →
      ((raceRun now txId st evs).db = db0 ∨ (raceRun now txId st evs).db = db1) ∧
      (∀ j, (raceRun now txId st evs).snaps j = none ∨
            (raceRun now txId st evs).snaps j = some s0) := by
  induction evs with
  | nil => intro st hdb hsn; exact ⟨hdb, hsn⟩
  | cons e es ih =>
    intro st hdb hsn
    rw [raceRun_cons]
    obtain ⟨hdb', hsn'⟩ := raceStep_inv now txId db0 db1 s0 hA hB hC hD st hdb hsn e
    exact ih _ hdb' hsn'

theorem raceRun_absorb (now txId : Nat) (db0 db1 : DB) (s0 : CreditSnap)
    (hA : creditRead db0 txId = some s0) (hB : creditRead db1 txId = none)
    (hC : (creditCommit now false db0 s0).1 = db1)
    (hD : (creditCommit now false db1 s0).1 = db1) (evs : List CreditEv) :
    ∀ st : CreditRace, st.db = db1 →
      (∀ j, st.snaps j = none ∨ st.snaps j = some s0) →
      (raceRun now txId st evs).db = db1 := by
  induction evs with
  | nil => intro st hdb _; exact hdb
  | cons e es ih =>
    intro st hdb hsn
    rw [raceRun_cons]
    obtain ⟨_, hsn'⟩ := raceStep_inv now txId db0 db1 s0 hA hB hC hD st (Or.inr hdb) hsn e
    refine ih _ ?_ hsn'
    cases e with
    | read ik => rw [raceStep_read]; exact hdb
    | commit ik =>
      rcases hsn ik with hn | hs
      · rw [raceStep_commit_none now txId st ik hn]; exact hdb
      · rw [raceStep_commit_some now txId st ik s0 hs]
        show (creditCommit now false st.db s0).1 = db1
        rw [hdb]
        exact hD

theorem raceRun_snap_frozen (now txId : Nat) (i : Nat) (evs : List CreditEv)
    (hnr : CreditEv.read i ∉ evs) :
    ∀ st : CreditRace, (raceRun now txId st evs).snaps i = st.snaps i := by
  induction evs with
  | nil => intro st; rfl
  | cons e es ih =>
    intro st
    rw [raceRun_cons]
    have hne : e ≠ CreditEv.read i := fun hh => hnr (hh ▸ List.mem_cons_self e es)
    have hes : CreditEv.read i ∉ es := fun hh => hnr (List.mem_cons_of_mem e hh)
    rw [ih hes]
    cases e with
    | read ik =>
      rw [raceStep_read]
      show Function.update st.snaps ik (creditRead st.db txId) i = st.snaps i
      have : i ≠ ik := fun hh => hne (by rw [hh])
      rw [Function.update_noteq this]
    | commit ik =>
      rcases hsk : st.snaps ik with hn | hs
      · rw [raceStep_commit_none now txId st ik hsk]
      · rw [raceStep_commit_some now txId st ik _ hsk]

theorem race_main (now txId : Nat) (db0 db1 : DB) (s0 : CreditSnap)
    (hA : creditRead db0 txId = some s0) (hB : creditRead db1 txId = none)
    (hC : (creditCommit now false db0 s0).1 = db1)
    (hD : (creditCommit now false db1 s0).1 = db1)
    (l1 l2 l3 : List CreditEv) (i : Nat) (hnr : CreditEv.read i ∉ l2) :
    (raceRun now txId (raceInit db0)
      (l1 ++ CreditEv.read i :: (l2 ++ CreditEv.commit i :: l3))).db = db1 := by
  rw [raceRun_append, raceRun_cons]
  have hinv1 := raceRun_inv now txId db0 db1 s0 hA hB hC hD l1 (raceInit db0)
    (Or.inl rfl) (fun j => Or.inl rfl)
  obtain ⟨hdb1, hsn1⟩ := hinv1
  obtain ⟨hdb2, hsn2⟩ := raceStep_inv now txId db0 db1 s0 hA hB hC hD _ hdb1 hsn1
    (CreditEv.read i)
  rcases hdb1 with h0 | h0
  · -- the store was still untouched when invocation i read its snapshot
    have hsnapi : (raceStep now txId (raceRun now txId (raceInit db0) l1)
        (CreditEv.read i)).snaps i = some s0 := by
      rw [raceStep_read]
      show Function.update (raceRun now txId (raceInit db0) l1).snaps i
        (creditRead (raceRun now txId (raceInit db0) l1).db txId) i = some s0
      rw [Function.update_same, h0, hA]
    rw [raceRun_append]
    obtain ⟨hdb3, hsn3⟩ := raceRun_inv now txId db0 db1 s0 hA hB hC hD l2 _ hdb2 hsn2
    have hsnapi3 : (raceRun now txId (raceStep now txId
        (raceRun now txId (raceInit db0) l1) (CreditEv.read i)) l2).snaps i = some s0 := by
      rw [raceRun_snap_frozen now txId i l2 hnr]
      exact hsnapi
    rw [raceRun_cons, raceStep_commit_some now txId _ i s0 hsnapi3]
    rcases hdb3 with h3 | h3
    · refine raceRun_absorb now txId db0 db1 s0 hA hB hC hD l3 _ ?_ hsn3
      show (creditCommit now false (raceRun now txId (raceStep now txId
        (raceRun now txId (raceInit db0) l1) (CreditEv.read i)) l2).db s0).1 = db1
      rw [h3]
      exact hC
    · refine raceRun_absorb now txId db0 db1 s0 hA hB hC hD l3 _ ?_ hsn3
      show (creditCommit now false (raceRun now txId (raceStep now txId
        (raceRun now txId (raceInit db0) l1) (CreditEv.read i)) l2).db s0).1 = db1
      rw [h3]
      exact hD
  · -- the transfer was already credited before invocation i read: nothing changes
    have hdb2' : (raceStep now txId (raceRun now txId (raceInit db0) l1)
        (CreditEv.read i)).db = db1 := by
      rw [raceStep_read]
      exact h0
    exact raceRun_absorb now txId db0 db1 s0 hA hB hC hD _ _ hdb2' hsn2

theorem find?_eq_of_pred_eq (l : List OnchainTransaction)
    (p q : OnchainTransaction → Bool) (hpq : ∀ a, p a = q a) :
    l.find? p = l.find? q := by
  induction l with
  | nil => rfl
  | cons x xs ih => rw [List.find?_cons, List.find?_cons, hpq x, ih]

theorem creditApply_countP_key (now : Nat) (db : DB) (s : CreditSnap)
    (h0 : db.ledger.countP (fun l => l.idempotencyKey == idempotencyKeyOf s.tx) = 0) :
    (creditApply now db s).ledger.countP
      (fun l => l.idempotencyKey == idempotencyKeyOf s.tx) = 1 := by
  simp [creditApply, List.countP_cons, h0]

/-- C1: at-most-once crediting under arbitrary interleaving.  Any number
of invocations of `creditUserDeposit` for one transfer — each one a read
phase (lines 193-222) followed by an atomic commit phase (lines 224-256),
interleaved in any order, with at least one invocation completing a read
followed by its own commit — leaves exactly one LedgerEntry carrying the
transfer's derived idempotency key `deposit:{txHash}:{logIndex}`, and
every stored account record of the resolved owning user carries the old
balance plus the transfer amount exactly once.  The uniqueness of the
idempotency key and the atomicity of the commit (modelled from the spec,
the Prisma schema not being under src/) are what makes the first commit
the only one to apply. -/
theorem creditUserDeposit_exactly_once (db0 : DB) (txId now : Nat)
    (tx : OnchainTransaction) (u : User)
    (hfind : db0.txs.find? (fun t => t.id == txId) = some tx)
    (hst : tx.status ≠ TxStatus.CREDITED)
    (hres : resolveUser db0 tx = some u)
    (hfresh : ∀ l ∈ db0.ledger, l.idempotencyKey ≠ idempotencyKeyOf tx)
    (l1 l2 l3 : List CreditEv) (i : Nat) (hnr : CreditEv.read i ∉ l2) :
    ((raceRun now txId (raceInit db0)
        (l1 ++ CreditEv.read i :: (l2 ++ CreditEv.commit i :: l3))).db.ledger.countP
      (fun l => l.idempotencyKey == idempotencyKeyOf tx) = 1) ∧
    (∀ rec ∈ (raceRun now txId (raceInit db0)
        (l1 ++ CreditEv.read i :: (l2 ++ CreditEv.commit i :: l3))).db.users,
      rec.id = u.id → rec.creditBalance = u.creditBalance + tx.amount) := by
  have hA : creditRead db0 txId = some ⟨tx, u⟩ := by
    rw [creditRead_eq_found db0 txId tx hfind, if_neg hst, hres]
    rfl
  have hany0 : (db0.ledger.any fun l => l.idempotencyKey == idempotencyKeyOf tx) = false :=
    List.any_eq_false.mpr (fun x hx => by simpa using hfresh x hx)
  have hC : (creditCommit now false db0 ⟨tx, u⟩).1 = creditApply now db0 ⟨tx, u⟩ := by
    rw [creditCommit_applies now db0 ⟨tx, u⟩ hany0]
  have hkey1 : ((creditApply now db0 ⟨tx, u⟩).ledger.any
      fun l => l.idempotencyKey == idempotencyKeyOf tx) = true := by
    simp [creditApply]
  have hD : (creditCommit now false (creditApply now db0 ⟨tx, u⟩) ⟨tx, u⟩).1
      = creditApply now db0 ⟨tx, u⟩ := by
    rw [creditCommit_dup now false _ _ hkey1]
  have hfind1 : (creditApply now db0 ⟨tx, u⟩).txs.find? (fun t => t.id == txId)
      = some { tx with status := TxStatus.CREDITED, creditedAt := some now } := by
    show (db0.txs.map (fun t => if t.id == tx.id
        then { t with status := TxStatus.CREDITED, creditedAt := some now } else t)).find?
        (fun t => t.id == txId)
      = some { tx with status := TxStatus.CREDITED, creditedAt := some now }
    rw [List.find?_map]
    rw [find?_eq_of_pred_eq db0.txs _ (fun t => t.id == txId) (by
      intro a
      show ((if (a.id == tx.id) = true
        then { a with status := TxStatus.CREDITED, creditedAt := some now } else a).id == txId)
        = (a.id == txId)
      by_cases hc : (a.id == tx.id) = true
      · rw [if_pos hc]
      · rw [if_neg hc])]
    rw [hfind]
    simp
  have hB : creditRead (creditApply now db0 ⟨tx, u⟩) txId = none := by
    rw [creditRead_eq_found _ txId _ hfind1, if_pos rfl]
  have hfin := race_main now txId db0 (creditApply now db0 ⟨tx, u⟩) ⟨tx, u⟩
    hA hB hC hD l1 l2 l3 i hnr
  rw [hfin]
  constructor
  · have h0 : List.countP (fun l => l.idempotencyKey == idempotencyKeyOf tx) db0.ledger = 0 :=
      List.countP_eq_zero.mpr (fun a ha => by simpa using hfresh a ha)
    exact creditApply_countP_key now db0 ⟨tx, u⟩ h0
  · intro rec hrec hrid
    have hrec' : rec ∈ db0.users.map (fun v => if v.id == u.id
        then { v with creditBalance := u.creditBalance + tx.amount } else v) := hrec
    rw [List.mem_map] at hrec'
    obtain ⟨v, hv, hg⟩ := hrec'
    by_cases hc : (v.id == u.id) = true
    · rw [if_pos hc] at hg
      subst hg
      rfl
    · exfalso
      rw [if_neg hc] at hg
      subst hg
      exact hc (by simpa using hrid)

/-- C1 witness: a sequential invocation (one read followed by its commit)
on the concrete store credits exactly once. -/
theorem creditUserDeposit_exactly_once_witness :
    scnConfirmedDB.txs.find? (fun t => t.id == 1) = some scnConfirmedTx ∧
    scnConfirmedTx.status ≠ TxStatus.CREDITED ∧
    resolveUser scnConfirmedDB scnConfirmedTx = some scnUser ∧
    (∀ l ∈ scnConfirmedDB.ledger, l.idempotencyKey ≠ idempotencyKeyOf scnConfirmedTx) ∧
    (((raceRun 3 1 (raceInit scnConfirmedDB)
        ([] ++ CreditEv.read 0 :: ([] ++ CreditEv.commit 0 :: []))).db.ledger.countP
      (fun l => l.idempotencyKey == idempotencyKeyOf scnConfirmedTx) = 1) ∧
    (∀ rec ∈ (raceRun 3 1 (raceInit scnConfirmedDB)
        ([] ++ CreditEv.read 0 :: ([] ++ CreditEv.commit 0 :: []))).db.users,
      rec.id = scnUser.id →
        rec.creditBalance = scnUser.creditBalance + scnConfirmedTx.amount)) :=
  ⟨by decide, by decide, by decide, by decide,
   creditUserDeposit_exactly_once scnConfirmedDB 1 3 scnConfirmedTx scnUser
     (by decide) (by decide) (by decide) (by decide) [] [] [] 0 (by decide)⟩
